import Mathlib

/-!
Shallow embedding of the pygasus note-stream decoder and device session
(`src/pygasus.py`), together with theorems checking the specification's
claims about it.

Bytes are modelled as `Nat` values (with `b < 256` hypotheses where byte
range matters).  Fallible Python code (IndexError, AssertionError,
struct.error, KeyError) is modelled with `Except` / explicit error
results.  The unbounded `while` loop of `load_pegasus_notes` is modelled
with an explicit fuel parameter; a theorem shows the fuel never runs out
for sufficiently large (buffer-length dependent) fuel, so the fuel-free
function `load_pegasus_notes` below is the loop's semantics.
-/

namespace Pygasus

instance {ε α : Type} [DecidableEq ε] [DecidableEq α] : DecidableEq (Except ε α) := fun a b =>
  match a, b with
  | .error e1, .error e2 =>
    if h : e1 = e2 then isTrue (by rw [h]) else isFalse (by simp [h])
  | .ok a1, .ok a2 =>
    if h : a1 = a2 then isTrue (by rw [h]) else isFalse (by simp [h])
  | .error _, .ok _ => isFalse (by simp)
  | .ok _, .error _ => isFalse (by simp)

/-! ### MD5 (model of `hashlib.md5(...).hexdigest()`, RFC 1321) -/

/-- Per-round shift amounts of MD5. -/
def md5S : List Nat :=
  [7, 12, 17, 22, 7, 12, 17, 22, 7, 12, 17, 22, 7, 12, 17, 22,
   5, 9, 14, 20, 5, 9, 14, 20, 5, 9, 14, 20, 5, 9, 14, 20,
   4, 11, 16, 23, 4, 11, 16, 23, 4, 11, 16, 23, 4, 11, 16, 23,
   6, 10, 15, 21, 6, 10, 15, 21, 6, 10, 15, 21, 6, 10, 15, 21]

/-- Per-round additive constants of MD5 (⌊2³²·|sin(i+1)|⌋). -/
def md5K : List Nat :=
  [0xd76aa478, 0xe8c7b756, 0x242070db, 0xc1bdceee,
   0xf57c0faf, 0x4787c62a, 0xa8304613, 0xfd469501,
   0x698098d8, 0x8b44f7af, 0xffff5bb1, 0x895cd7be,
   0x6b901122, 0xfd987193, 0xa679438e, 0x49b40821,
   0xf61e2562, 0xc040b340, 0x265e5a51, 0xe9b6c7aa,
   0xd62f105d, 0x02441453, 0xd8a1e681, 0xe7d3fbc8,
   0x21e1cde6, 0xc33707d6, 0xf4d50d87, 0x455a14ed,
   0xa9e3e905, 0xfcefa3f8, 0x676f02d9, 0x8d2a4c8a,
   0xfffa3942, 0x8771f681, 0x6d9d6122, 0xfde5380c,
   0xa4beea44, 0x4bdecfa9, 0xf6bb4b60, 0xbebfbc70,
   0x289b7ec6, 0xeaa127fa, 0xd4ef3085, 0x04881d05,
   0xd9d4d039, 0xe6db99e5, 0x1fa27cf8, 0xc4ac5665,
   0xf4292244, 0x432aff97, 0xab9423a7, 0xfc93a039,
   0x655b59c3, 0x8f0ccc92, 0xffeff47d, 0x85845dd1,
   0x6fa87e4f, 0xfe2ce6e0, 0xa3014314, 0x4e0811a1,
   0xf7537e82, 0xbd3af235, 0x2ad7d2bb, 0xeb86d391]

/-- 32-bit left rotation (inputs are kept `< 2³²` by construction). -/
def rotl32 (x s : Nat) : Nat :=
  ((x <<< s) ||| (x >>> (32 - s))) % 4294967296

/-- The MD5 round mixing functions F, G, H, I selected by round index. -/
def md5F (i b c d : Nat) : Nat :=
  if i < 16 then (b &&& c) ||| ((4294967295 - b) &&& d)
  else if i < 32 then (d &&& b) ||| ((4294967295 - d) &&& c)
  else if i < 48 then b ^^^ c ^^^ d
  else c ^^^ (b ||| (4294967295 - d))

/-- The message-word index used in round `i`. -/
def md5G (i : Nat) : Nat :=
  if i < 16 then i
  else if i < 32 then (5 * i + 1) % 16
  else if i < 48 then (3 * i + 5) % 16
  else (7 * i) % 16

/-- Little-endian 32-bit word number `g` of a 64-byte chunk. -/
def md5word (chunk : List Nat) (g : Nat) : Nat :=
  chunk.getD (4 * g) 0 + (chunk.getD (4 * g + 1) 0) <<< 8 +
    (chunk.getD (4 * g + 2) 0) <<< 16 + (chunk.getD (4 * g + 3) 0) <<< 24

/-- Running state of the MD5 compression function. -/
structure MD5State where
  a : Nat
  b : Nat
  c : Nat
  d : Nat
deriving DecidableEq, Repr

/-- One of the 64 rounds of the MD5 compression function. -/
def md5step (chunk : List Nat) (st : MD5State) (i : Nat) : MD5State :=
  let f := (md5F i st.b st.c st.d + st.a + md5K.getD i 0 +
            md5word chunk (md5G i)) % 4294967296
  { a := st.d
    b := (st.b + rotl32 f (md5S.getD i 0)) % 4294967296
    c := st.b
    d := st.c }

/-- Process one 64-byte chunk: 64 rounds, then add back the input state. -/
def md5chunk (st : MD5State) (chunk : List Nat) : MD5State :=
  let e := (List.range 64).foldl (md5step chunk) st
  { a := (st.a + e.a) % 4294967296
    b := (st.b + e.b) % 4294967296
    c := (st.c + e.c) % 4294967296
    d := (st.d + e.d) % 4294967296 }

/-- MD5 padding: a `0x80` byte, zeros to 56 mod 64, then the 64-bit
little-endian bit length. -/
def md5pad (msg : List Nat) : List Nat :=
  let bitlen := (8 * msg.length) % 18446744073709551616
  msg ++ [128] ++ List.replicate ((119 - msg.length % 64) % 64) 0 ++
    [bitlen % 256, bitlen / 256 % 256, bitlen / 65536 % 256,
     bitlen / 16777216 % 256, bitlen / 4294967296 % 256,
     bitlen / 1099511627776 % 256, bitlen / 281474976710656 % 256,
     bitlen / 72057594037927936 % 256]

/-- Split into 64-byte chunks; the first argument is structural fuel,
always instantiated with the list length (one chunk consumes at least
one byte, so this suffices). -/
def chunks64Aux : Nat → List Nat → List (List Nat)
  | 0, _ => []
  | _, [] => []
  | n + 1, l => l.take 64 :: chunks64Aux n (l.drop 64)

/-- Split a byte list into 64-byte chunks. -/
def chunks64 (l : List Nat) : List (List Nat) :=
  chunks64Aux l.length l

/-- Serialize a 32-bit word as 4 little-endian bytes. -/
def wordLE (w : Nat) : List Nat :=
  [w % 256, w / 256 % 256, w / 65536 % 256, w / 16777216 % 256]

/-- Initial MD5 state. -/
def md5init : MD5State :=
  ⟨0x67452301, 0xefcdab89, 0x98badcfe, 0x10325476⟩

/-- The 16-byte MD5 digest of a byte list. -/
def md5bytes (msg : List Nat) : List Nat :=
  let fin := (chunks64 (md5pad msg)).foldl md5chunk md5init
  wordLE fin.a ++ wordLE fin.b ++ wordLE fin.c ++ wordLE fin.d

/-- One lowercase hexadecimal digit. -/
def hexDigitChar (n : Nat) : Char :=
  if n < 10 then Char.ofNat (48 + n) else Char.ofNat (87 + n)

/-- Two lowercase hex digits of one byte. -/
def byteHex (b : Nat) : List Char :=
  [hexDigitChar (b / 16 % 16), hexDigitChar (b % 16)]

/-- Model of `hashlib.md5(msg).hexdigest()`: the 32-character lowercase
hex string of the 128-bit MD5 digest. -/
def md5hex (msg : List Nat) : String :=
  String.mk ((md5bytes msg).map byteHex).flatten

/-! ### Note record decoding (`PegasusNote.__init__`, lines 16-49) -/

/-- Decode errors of the note decoder, mirroring the Python exceptions:
out-of-range indexing in `load_pegasus_notes` (`pointerIndex`),
out-of-range header indexing in `PegasusNote.__init__` (`headerIndex`),
the failed flag-bit-4 assertion (`assertFlagBit4`), and
`struct.error` from unpacking a short coordinate group (`structError`). -/
inductive DecErr where
  | pointerIndex
  | headerIndex
  | assertFlagBit4
  | structError
deriving DecidableEq, Repr

/-- The boolean header flags computed (and then discarded) by
`PegasusNote.__init__`, lines 21-29. -/
structure NoteFlags where
  note_contains_content : Bool
  note_closed : Bool
  note_closed_by_user : Bool
  note_side_left : Bool
  note_side_right : Bool
  note_already_uploaded : Bool
  pen_bat_low : Bool
deriving DecidableEq, Repr

/-- Flag byte decode of lines 21-29: the masks and polarities used by the
source, including the `assert (flags & 0b00010000) != 0` on line 25. -/
def parseFlags (flags : Nat) : Except DecErr NoteFlags :=
  if flags &&& 16 = 0 then .error .assertFlagBit4
  else
    .ok { note_contains_content := flags &&& 128 != 0
          note_closed := flags &&& 64 == 0
          note_closed_by_user := flags &&& 32 != 0
          note_side_left := flags &&& 8 != 0
          note_side_right := flags &&& 4 != 0
          note_already_uploaded := flags &&& 2 == 0
          pen_bat_low := flags &&& 1 == 0 }

/-- Little-endian signed 16-bit decode of two bytes (struct format `<h`). -/
def toI16 (lo hi : Nat) : Int :=
  let v := lo + (hi <<< 8)
  if v < 32768 then (v : Int) else (v : Int) - 65536

/-- The decoded state a `PegasusNote` instance keeps: `_hash`, `_strokes`
and `_note_id` (lines 48-50). -/
structure PegasusNote where
  hash : String
  strokes : List (List (Int × Int))
  note_id : Nat
deriving DecidableEq, Repr

/-- The stroke-payload scan loop of lines 37-46: read 4 bytes at a time;
the group `00 00 00 80` closes the current stroke, any other full group
is appended to it as an `(x, y)` point; a trailing group of fewer than 4
bytes raises `struct.error`; the open stroke at the end of the buffer is
discarded. -/
def scanStrokes : List Nat → List (Int × Int) → Except DecErr (List (List (Int × Int)))
  | [], _ => .ok []
  | b0 :: b1 :: b2 :: b3 :: rest, stroke =>
    if [b0, b1, b2, b3] = [0, 0, 0, 128] then
      match scanStrokes rest [] with
      | .ok ss => .ok (stroke :: ss)
      | .error e => .error e
    else
      scanStrokes rest (stroke ++ [(toI16 b0 b1, toI16 b2 b3)])
  | _, _ => .error .structError

/-- Model of `PegasusNote.__init__` on one record slice.  The length
guards model the `IndexError`s Python raises when the 14-byte header
(indices 3-13 are read, index 10's check is commented out in the source)
does not fit. -/
def parseNote (data : List Nat) : Except DecErr PegasusNote :=
  if 3 < data.length then
    if data.getD 3 0 &&& 16 = 0 then .error .assertFlagBit4
    else if 13 < data.length then
      match scanStrokes (data.drop 14) [] with
      | .error e => .error e
      | .ok strokes =>
        .ok { hash := md5hex (data.drop 14)
              strokes := strokes
              note_id := data.getD 4 0 }
    else .error .headerIndex
  else .error .headerIndex

/-! ### The linked-list walk (`load_pegasus_notes`, lines 4-12) -/

/-- Result of the note-list walk: the decoded notes, a raised exception,
or fuel exhaustion of the model (shown unreachable below). -/
inductive LoadResult where
  | ok (notes : List PegasusNote)
  | err (e : DecErr)
  | fuelOut
deriving DecidableEq, Repr

/-- The 24-bit little-endian next-record pointer read at `offset`
(lines 7 and 11). -/
def nextPointer (data : List Nat) (offset : Nat) : Nat :=
  data.getD offset 0 + (data.getD (offset + 1) 0) <<< 8 +
    (data.getD (offset + 2) 0) <<< 16

/-- Fuel-indexed model of the `while pointer != 0` loop of
`load_pegasus_notes`: read the pointer at the current offset (the length
guard models the `IndexError` on a short buffer), stop on zero, else
decode the slice `data[offset:pointer]` and continue at `pointer`. -/
def loadNotesFuel (data : List Nat) : Nat → Nat → LoadResult
  | 0, _ => .fuelOut
  | fuel + 1, offset =>
    if offset + 2 < data.length then
      if nextPointer data offset = 0 then .ok []
      else
        match parseNote ((data.drop offset).take (nextPointer data offset - offset)) with
        | .error e => .err e
        | .ok note =>
          match loadNotesFuel data fuel (nextPointer data offset) with
          | .ok rest => .ok (note :: rest)
          | r => r
    else .err .pointerIndex

/-- `load_pegasus_notes`: fuel `data.length + 1` always suffices (proved
below), making this the semantics of the source's unbounded loop. -/
def load_pegasus_notes (data : List Nat) : LoadResult :=
  loadNotesFuel data (data.length + 1) 0

/-- Extract the decoded note list, if the walk succeeded. -/
def notesOf : LoadResult → Option (List PegasusNote)
  | .ok notes => some notes
  | _ => none

/-- Whether the walk raised an exception. -/
def isErrResult : LoadResult → Bool
  | .err _ => true
  | _ => false

/-! ### Transport framer and device session (`PegasusDevice`) -/

/-- Model of `_dev_write_command` (lines 215-217): the 8-byte command
frame `[0x02, len, opcode..., zero-pad to 6]`. -/
def dev_write_command (command : List Nat) : List Nat :=
  [2, command.length] ++ command ++ List.replicate (6 - command.length) 0

/-- Error raised by the final length assertion of `_dev_read`
(line 241): a partial frame arrived before the deadline. -/
inductive ReadErr where
  | assertLen64
deriving DecidableEq, Repr

/-- Decision logic of `_dev_read` (lines 239-242) as a function of the
bytes accumulated before the deadline (the wall-clock/signal machinery
that produces them is outside the embedding; the loop reads at most 64
bytes): zero bytes is "no reply", 64 bytes is success, anything else
fails the `assert len(reply) == 64`. -/
def dev_read_result (reply : List Nat) : Except ReadErr (Option (List Nat)) :=
  if reply.length = 0 then .ok none
  else if reply.length = 64 then .ok (some reply)
  else .error .assertLen64

/-- Errors of `_get_version` (lines 188-200): a too-short buffer for
`struct.unpack_from('>BBBHHHBB')`, the three marker assertions, and the
version-field disagreement assertion. -/
inductive VerErr where
  | structShort
  | assertB0
  | assertB1
  | assertB9
  | versionMismatch
deriving DecidableEq, Repr

/-- The device properties `_get_version` stores (lines 197-200). -/
structure VersionInfo where
  product_id : Nat
  version : Nat
  pad_version : Nat
  mode : Nat
deriving DecidableEq, Repr

/-- Big-endian 16-bit field at byte offset `i` (struct format `>H`). -/
def be16 (m : List Nat) (i : Nat) : Nat :=
  ((m.getD i 0) <<< 8) + m.getD (i + 1) 0

/-- Model of `_get_version`'s reply handling: unpack the reply with
layout `>BBBHHHBB` (11 bytes: three u8, three big-endian u16, two u8)
and run the four assertions in source order (`b0 == 0x80`,
`b1 == 0xa9`, `b9 == 0x0e`, `version1 == version2`). -/
def get_version_parse (m : List Nat) : Except VerErr VersionInfo :=
  if 10 < m.length then
    if m.getD 0 0 = 128 then
      if m.getD 1 0 = 169 then
        if m.getD 9 0 = 14 then
          if be16 m 3 = be16 m 5 then
            .ok { product_id := m.getD 2 0
                  version := be16 m 3
                  pad_version := be16 m 7
                  mode := m.getD 10 0 }
          else .error .versionMismatch
        else .error .assertB9
      else .error .assertB1
    else .error .assertB0
  else .error .structShort

/-- Reply layout as the claim words it (for comparison with
`get_version_parse`): two marker bytes `0x80 0xA9`, a u8 product id, two
big-endian version fields that must be equal, a **u8** pad-version, the
marker byte `0x0E`, then a u8 mode — so the pad-version would be byte 7,
the `0x0E` marker byte 8, and the mode byte 9. -/
def get_version_parse_claimed (m : List Nat) : Except VerErr VersionInfo :=
  if 9 < m.length then
    if m.getD 0 0 = 128 then
      if m.getD 1 0 = 169 then
        if m.getD 8 0 = 14 then
          if be16 m 3 = be16 m 5 then
            .ok { product_id := m.getD 2 0
                  version := be16 m 3
                  pad_version := m.getD 7 0
                  mode := m.getD 9 0 }
          else .error .versionMismatch
        else .error .assertB9
      else .error .assertB1
    else .error .assertB0
  else .error .structShort

/-- Errors of `download_data` (lines 147-175): a missing/short handshake
reply, a failed handshake marker assertion, the failed
`len(packets) == number_of_packets` assertion, and a `KeyError` when a
packet id from `1..N` is absent during reassembly. -/
inductive DlErr where
  | noReply
  | headerShort
  | assertHeader
  | assertPackets
  | keyError
deriving DecidableEq, Repr

/-- The 1-based big-endian packet id in a bulk-transfer frame
(line 166). -/
def packet_id (f : List Nat) : Nat :=
  ((f.getD 0 0) <<< 8) + f.getD 1 0

/-- Python-dict update `packets[k] = v` on an association list with
unique keys: replace in place, or append a new binding. -/
def upsert (m : List (Nat × List Nat)) (k : Nat) (v : List Nat) : List (Nat × List Nat) :=
  match m with
  | [] => [(k, v)]
  | (k1, v1) :: rest => if k1 = k then (k, v) :: rest else (k1, v1) :: upsert rest k v

/-- The packet-collection loop of lines 160-167: while fewer than `n`
distinct ids are stored, read the next frame (end of the `frames` list
models `_dev_read` returning `None`, which breaks the loop) and store
its payload `reply[2:]` under its id. -/
def collectPackets : List (List Nat) → Nat → List (Nat × List Nat) → List (Nat × List Nat)
  | [], _, acc => acc
  | f :: rest, n, acc =>
    if acc.length < n then collectPackets rest n (upsert acc (packet_id f) (f.drop 2))
    else acc

/-- The association list a complete in-order collection run produces:
one binding per frame, id to payload. -/
def assocOf (frames : List (List Nat)) : List (Nat × List Nat) :=
  frames.map (fun f => (packet_id f, f.drop 2))

/-- The reassembly loop of lines 172-174, `packets[i+1]` for
`i in range(n)` starting at id `start`: `none` models the `KeyError` on
a missing id. -/
def gatherFrom (packets : List (Nat × List Nat)) : Nat → Nat → Option (List (List Nat))
  | _, 0 => some []
  | start, m + 1 =>
    match packets.lookup start with
    | none => none
    | some p =>
      match gatherFrom packets (start + 1) m with
      | none => none
      | some ps => some (p :: ps)

/-- Model of the handshake-reply checks of lines 150-158: the marker
assertions (`0xAA` at bytes 0-4, `0x55` at bytes 7-8) and the big-endian
u16 packet count at bytes 5-6. -/
def parse_download_header (reply : List Nat) : Except DlErr Nat :=
  if 8 < reply.length then
    if reply.getD 0 0 = 170 ∧ reply.getD 1 0 = 170 ∧ reply.getD 2 0 = 170 ∧
       reply.getD 3 0 = 170 ∧ reply.getD 4 0 = 170 ∧
       reply.getD 7 0 = 85 ∧ reply.getD 8 0 = 85 then
      .ok ((reply.getD 5 0 <<< 8) + reply.getD 6 0)
    else .error .assertHeader
  else .error .headerShort

/-- Model of `download_data` (lines 147-175) as a function of the
handshake reply (`none` models `_dev_read` returning `None`) and the
sequence of bulk frames subsequently delivered: parse the announced
count, collect packets by id, check `len(packets) == n`, then
concatenate the payloads of ids `1..n` in order.  The `[0xB5]`/`[0xB6]`
writes have no effect on the returned buffer and are not modelled. -/
def download_data : Option (List Nat) → List (List Nat) → Except DlErr (List Nat)
  | none, _ => .error .noReply
  | some reply, frames =>
    match parse_download_header reply with
    | .error e => .error e
    | .ok n =>
      if (collectPackets frames n []).length = n then
        match gatherFrom (collectPackets frames n []) 1 n with
        | none => .error .keyError
        | some ps => .ok ps.flatten
      else .error .assertPackets

/-- A well-formed bulk-download handshake reply announcing `n` packets. -/
def dl_header (n : Nat) : List Nat :=
  [170, 170, 170, 170, 170, n / 256, n % 256, 85, 85]

/-! ### Spec-side predicates and concrete buffers used by the claims -/

/-- `extra` is a sequence of full 4-byte groups, none of which is the
pen-lift sentinel `00 00 00 80` — i.e. a trailing open stroke. -/
def nonSentinelGroups : List Nat → Bool
  | [] => true
  | b0 :: b1 :: b2 :: b3 :: rest =>
    decide ([b0, b1, b2, b3] ≠ [0, 0, 0, 128]) && nonSentinelGroups rest
  | _ => false

/-- A buffer laid out exactly as claim C2 words it: record 1 carries
next-pointer 20 and a 14-byte header, one coordinate point `(10, 20)`
and one sentinel; the three bytes at offset 20 hold record 2's
next-pointer 0. -/
def c2buf : List Nat :=
  [20, 0, 0, 16, 1, 2, 0, 0, 0, 0, 1, 0, 0, 0,
   10, 0, 20, 0, 0, 0, 0, 128, 0, 0, 0]

/-- The same two-record buffer with record 1's next-pointer corrected to
22 = 14 (header) + 4 (point) + 4 (sentinel). -/
def c2okbuf : List Nat :=
  [22, 0, 0, 16, 1, 2, 0, 0, 0, 0, 1, 0, 0, 0,
   10, 0, 20, 0, 0, 0, 0, 128, 0, 0, 0]

/-- The single record slice of `c2okbuf`: 14-byte header, one point, one
sentinel. -/
def oneStrokeRecord : List Nat :=
  [22, 0, 0, 16, 1, 2, 0, 0, 0, 0, 1, 0, 0, 0,
   10, 0, 20, 0, 0, 0, 0, 128]

/-- The note decoded from `oneStrokeRecord`. -/
def oneStrokeNote : PegasusNote :=
  { hash := md5hex [10, 0, 20, 0, 0, 0, 0, 128]
    strokes := [[(10, 20)]]
    note_id := 1 }

/-- A 14-byte record slice that is header only (flags `0x10`, id 1). -/
def headerOnlyRecord1 : List Nat :=
  [0, 0, 0, 16, 1, 1, 0, 0, 0, 0, 1, 0, 0, 0]

/-- A different header-only record slice (flags `0x90`, id 9, other
timestamp): same empty payload as `headerOnlyRecord1`. -/
def headerOnlyRecord2 : List Nat :=
  [0, 0, 9, 144, 9, 9, 7, 7, 7, 7, 1, 5, 5, 5]

/-- The note decoded from either header-only record. -/
def headerOnlyNote (id : Nat) : PegasusNote :=
  { hash := md5hex [], strokes := [], note_id := id }

/-- A buffer whose first pointer is 3 and whose pointer at offset 3 is
again 3: an adversarial pointer cycle. -/
def cycBuf : List Nat := [3, 0, 0, 3, 0, 0]

/-- A version reply (64 bytes) with `version1 = version2 = 7`, product
id 5, pad-version bytes `01 02` and mode 3. -/
def verMsg : List Nat :=
  [128, 169, 5, 0, 7, 0, 7, 1, 2, 14, 3] ++ List.replicate 53 0

/-- A second version reply: product id 9, version 5, pad-version 33,
mode 2. -/
def verMsg2 : List Nat :=
  [128, 169, 9, 0, 5, 0, 5, 0, 33, 14, 2] ++ List.replicate 53 0

/-- A 64-byte bulk frame with id 1 and payload 62 × `3`. -/
def frameA : List Nat := [0, 1] ++ List.replicate 62 3

/-- A 64-byte bulk frame with id 2 and payload 62 × `4`. -/
def frameB : List Nat := [0, 2] ++ List.replicate 62 4

/-! ### MD5 sanity checks against published test vectors -/

set_option maxRecDepth 100000 in
theorem md5hex_check_empty : md5hex [] = "d41d8cd98f00b204e9800998ecf8427e" := by
  decide

set_option maxRecDepth 100000 in
theorem md5hex_check_abc : md5hex [97, 98, 99] = "900150983cd24fb0d6963f7d28e17f72" := by
  decide

/-! ### Helper lemmas about `parseNote` -/

theorem parseNote_ok_spec {d : List Nat} {n : PegasusNote} (h : parseNote d = .ok n) :
    13 < d.length ∧ d.getD 3 0 &&& 16 ≠ 0 ∧
    scanStrokes (d.drop 14) [] = .ok n.strokes ∧
    n.hash = md5hex (d.drop 14) ∧ n.note_id = d.getD 4 0 := by
  unfold parseNote at h
  by_cases h3 : 3 < d.length
  · rw [if_pos h3] at h
    by_cases hb : d.getD 3 0 &&& 16 = 0
    · rw [if_pos hb] at h; simp at h
    · rw [if_neg hb] at h
      by_cases h13 : 13 < d.length
      · rw [if_pos h13] at h
        cases hs : scanStrokes (d.drop 14) [] with
        | error e => rw [hs] at h; simp at h
        | ok ss =>
          rw [hs] at h
          obtain rfl := (Except.ok.inj h)
          exact ⟨h13, hb, rfl, rfl, rfl⟩
      · rw [if_neg h13] at h; simp at h
  · rw [if_neg h3] at h; simp at h

theorem parseNote_ok_intro (d : List Nat) (h13 : 13 < d.length)
    (hb : ¬ d.getD 3 0 &&& 16 = 0) (ss : List (List (Int × Int)))
    (hs : scanStrokes (d.drop 14) [] = .ok ss) :
    parseNote d = .ok { hash := md5hex (d.drop 14), strokes := ss, note_id := d.getD 4 0 } := by
  unfold parseNote
  rw [if_pos (by omega), if_neg hb, if_pos h13, hs]

theorem parseNote_ok_len {d : List Nat} {n : PegasusNote} (h : parseNote d = .ok n) :
    13 < d.length :=
  (parseNote_ok_spec h).1

/-! ### Bit-level helper lemmas for the flag decode -/

theorem and_two_pow_bne (n i : Nat) : (n &&& 2 ^ i != 0) = n.testBit i := by
  cases h : n.testBit i <;> simp [Nat.and_two_pow, h, Nat.pow_eq_zero]

theorem and_two_pow_beq (n i : Nat) : (n &&& 2 ^ i == 0) = !n.testBit i := by
  cases h : n.testBit i <;> simp [Nat.and_two_pow, h, Nat.pow_eq_zero]

theorem and_two_pow_eq_zero (n i : Nat) : n &&& 2 ^ i = 0 ↔ n.testBit i = false := by
  rw [Nat.and_two_pow]
  cases h : n.testBit i <;> simp [Nat.pow_eq_zero]

/-! ### C8 — frame-receive semantics -/

/-- C8: the frame-receive decision logic returns an empty result (`none`,
no error) exactly when zero bytes were received before the deadline; a
partial frame of 1..63 bytes fails the length assertion instead of being
returned; and a successful result is exactly the 64 received bytes. -/
theorem claim_C8_frame_receive (reply : List Nat) :
    (dev_read_result reply = .ok none ↔ reply.length = 0) ∧
    (0 < reply.length → reply.length < 64 →
      dev_read_result reply = .error ReadErr.assertLen64) ∧
    (∀ r, dev_read_result reply = .ok (some r) → r.length = 64 ∧ r = reply) := by
  unfold dev_read_result
  by_cases h0 : reply.length = 0
  · simp [h0]
  · by_cases h64 : reply.length = 64
    · refine ⟨by simp [h0, h64], by omega, ?_⟩
      intro r hr
      rw [if_neg h0, if_pos h64] at hr
      obtain rfl := (Option.some.inj (Except.ok.inj hr)).symm
      exact ⟨h64, rfl⟩
    · refine ⟨by simp [h0, h64], fun _ _ => by simp [h0, h64], ?_⟩
      intro r hr
      rw [if_neg h0, if_neg h64] at hr
      simp at hr

theorem claim_C8_frame_receive_witness :
    dev_read_result (List.replicate 30 0) = .error ReadErr.assertLen64 :=
  (claim_C8_frame_receive (List.replicate 30 0)).2.1 (by simp) (by simp)

/-! ### C3 — header flag decode -/

/-- C3 counterexample: the flags byte `0b10011100` (= 156) has bit 2 set,
so the decode of lines 21-29 yields `note_side_right = true`, refuting
the claim's `side_right = false` for this byte (the remaining fields
come out as the claim predicts). -/
theorem claim_C3_counterexample :
    parseFlags 156 =
      .ok ⟨true, true, false, true, true, true, true⟩ := by
  decide

/-- C3 (amended): the flag byte is decoded as — bit 7 `has_content`,
bit 6 inverse of `closed`, bit 5 `closed_by_user`, bit 4 must be set
(its absence is a fatal decode error, both in the flag decode and in
whole-record decoding), bit 3 `side_left`, bit 2 `side_right`, bit 1
inverse of `already_uploaded`, bit 0 inverse of `pen_battery_low`; for
the byte `0b10011100` this yields `has_content=true, closed=true,
closed_by_user=false, side_left=true, side_right=true` (bit 2 is set),
`already_uploaded=true`. -/
theorem claim_C3_flag_bits :
    (∀ flags fb, parseFlags flags = .ok fb →
      fb.note_contains_content = flags.testBit 7 ∧
      fb.note_closed = !flags.testBit 6 ∧
      fb.note_closed_by_user = flags.testBit 5 ∧
      flags.testBit 4 = true ∧
      fb.note_side_left = flags.testBit 3 ∧
      fb.note_side_right = flags.testBit 2 ∧
      fb.note_already_uploaded = !flags.testBit 1 ∧
      fb.pen_bat_low = !flags.testBit 0) ∧
    (∀ flags, flags.testBit 4 = false → parseFlags flags = .error DecErr.assertFlagBit4) ∧
    (∀ (data : List Nat), 3 < data.length → (data.getD 3 0).testBit 4 = false →
      parseNote data = .error DecErr.assertFlagBit4) ∧
    parseFlags 156 = .ok ⟨true, true, false, true, true, true, true⟩ := by
  have h16 : (16 : Nat) = 2 ^ 4 := rfl
  refine ⟨?_, ?_, ?_, by decide⟩
  · intro flags fb h
    unfold parseFlags at h
    by_cases hb : flags &&& 16 = 0
    · rw [if_pos hb] at h; simp at h
    · rw [if_neg hb] at h
      obtain rfl := (Except.ok.inj h).symm
      rw [h16] at hb
      refine ⟨?_, ?_, ?_, ?_, ?_, ?_, ?_, ?_⟩
      · exact (show (128 : Nat) = 2 ^ 7 from rfl) ▸ and_two_pow_bne flags 7
      · exact (show (64 : Nat) = 2 ^ 6 from rfl) ▸ and_two_pow_beq flags 6
      · exact (show (32 : Nat) = 2 ^ 5 from rfl) ▸ and_two_pow_bne flags 5
      · have := (and_two_pow_eq_zero flags 4).not.mp hb
        cases h4 : flags.testBit 4
        · exact absurd h4 this
        · rfl
      · exact (show (8 : Nat) = 2 ^ 3 from rfl) ▸ and_two_pow_bne flags 3
      · exact (show (4 : Nat) = 2 ^ 2 from rfl) ▸ and_two_pow_bne flags 2
      · exact (show (2 : Nat) = 2 ^ 1 from rfl) ▸ and_two_pow_beq flags 1
      · exact (show (1 : Nat) = 2 ^ 0 from rfl) ▸ and_two_pow_beq flags 0
  · intro flags h
    unfold parseFlags
    rw [if_pos (by rw [h16]; exact (and_two_pow_eq_zero flags 4).mpr h)]
  · intro data h3 hbit
    unfold parseNote
    rw [if_pos h3, if_pos (by rw [h16]; exact (and_two_pow_eq_zero _ 4).mpr hbit)]

theorem claim_C3_flag_bits_witness :
    parseFlags 0 = .error DecErr.assertFlagBit4 :=
  claim_C3_flag_bits.2.1 0 (by decide)

/-! ### C2 — the end-to-end two-record scenario -/

set_option maxRecDepth 10000 in
/-- C2 counterexample: on the buffer laid out exactly as the claim words
it (record 1 next-pointer 20, a 14-byte header, one coordinate point and
one sentinel, record 2 next-pointer 0), decoding does not yield 2 note
records — the 20-byte slice leaves a 6-byte stroke payload whose last
2-byte group fails the 4-byte `struct` unpack, so decoding raises
`struct.error`. -/
theorem claim_C2_counterexample :
    load_pegasus_notes c2buf = LoadResult.err DecErr.structError := by
  decide

set_option maxRecDepth 100000 in
/-- C2 (amended): with record 1's next-pointer corrected to 22 (= 14-byte
header + one 4-byte point + one 4-byte sentinel) and record 2's
next-pointer 0, decoding yields exactly **one** NoteRecord — the record
whose pointer is 0 terminates the list and is itself never emitted — and
that record has exactly 1 stroke containing exactly 1 point. -/
theorem claim_C2_amended :
    (notesOf (load_pegasus_notes c2okbuf)).map
        (List.map (fun n : PegasusNote => (n.strokes, n.note_id))) =
      some [([[((10 : Int), (20 : Int))]], 1)] := by
  decide

/-! ### C1 — termination of the linked-list walk -/

theorem loadNotesFuel_congr (data : List Nat) :
    ∀ f1 f2 offset, data.length - offset < f1 → data.length - offset < f2 →
      loadNotesFuel data f1 offset = loadNotesFuel data f2 offset := by
  intro f1
  induction f1 with
  | zero => intro f2 offset h1 _; omega
  | succ f ih =>
    intro f2 offset h1 h2
    obtain ⟨g, rfl⟩ : ∃ g, f2 = g + 1 := ⟨f2 - 1, by omega⟩
    simp only [loadNotesFuel]
    by_cases hoff : offset + 2 < data.length
    · simp only [if_pos hoff]
      by_cases hp : nextPointer data offset = 0
      · simp only [if_pos hp]
      · simp only [if_neg hp]
        cases hparse : parseNote ((data.drop offset).take (nextPointer data offset - offset)) with
        | error e => rfl
        | ok note =>
          have hlen := parseNote_ok_len hparse
          rw [List.length_take, List.length_drop] at hlen
          rw [ih g (nextPointer data offset) (by omega) (by omega)]
    · simp only [if_neg hoff]

theorem loadNotesFuel_no_fuelOut (data : List Nat) :
    ∀ fuel offset, data.length - offset < fuel →
      loadNotesFuel data fuel offset ≠ LoadResult.fuelOut := by
  intro fuel
  induction fuel with
  | zero => intro offset h; omega
  | succ f ih =>
    intro offset h
    simp only [loadNotesFuel]
    by_cases hoff : offset + 2 < data.length
    · simp only [if_pos hoff]
      by_cases hp : nextPointer data offset = 0
      · simp [hp]
      · simp only [if_neg hp]
        cases hparse : parseNote ((data.drop offset).take (nextPointer data offset - offset)) with
        | error e => simp
        | ok note =>
          have hlen := parseNote_ok_len hparse
          rw [List.length_take, List.length_drop] at hlen
          have hrec := ih (nextPointer data offset) (by omega)
          cases hcall : loadNotesFuel data f (nextPointer data offset) with
          | ok rest => simp
          | err e => simp
          | fuelOut => exact absurd hcall hrec
    · simp [hoff]

/-- C1: for every byte buffer the note-list walk terminates — any fuel
beyond the buffer length yields the same, fuel-independent result, which
is never fuel exhaustion (on a cycle the offsets cannot keep increasing,
and the first non-increasing nonzero pointer produces an empty record
slice whose header decode fails) — and, explicitly, a step whose
next-record pointer is nonzero but not past the current offset
immediately fails with a decode error rather than looping. -/
theorem claim_C1_decode_terminates :
    (∀ (data : List Nat) (fuel : Nat), data.length < fuel →
      loadNotesFuel data fuel 0 = load_pegasus_notes data ∧
      load_pegasus_notes data ≠ LoadResult.fuelOut) ∧
    (∀ (data : List Nat) (fuel offset : Nat),
      nextPointer data offset ≠ 0 → nextPointer data offset ≤ offset →
      isErrResult (loadNotesFuel data (fuel + 1) offset) = true) := by
  constructor
  · intro data fuel h
    exact ⟨loadNotesFuel_congr data fuel (data.length + 1) 0 (by omega) (by omega),
           loadNotesFuel_no_fuelOut data (data.length + 1) 0 (by omega)⟩
  · intro data fuel offset hne hle
    simp only [loadNotesFuel]
    by_cases hoff : offset + 2 < data.length
    · simp only [if_pos hoff, if_neg hne]
      have hz : nextPointer data offset - offset = 0 := by omega
      rw [hz, List.take_zero]
      simp [parseNote, isErrResult]
    · simp [hoff, isErrResult]

theorem claim_C1_decode_terminates_witness :
    (loadNotesFuel cycBuf 7 0 = load_pegasus_notes cycBuf ∧
     load_pegasus_notes cycBuf ≠ LoadResult.fuelOut) ∧
    isErrResult (loadNotesFuel cycBuf 1 3) = true :=
  ⟨claim_C1_decode_terminates.1 cycBuf 7 (by decide),
   claim_C1_decode_terminates.2 cycBuf 0 3 (by decide) (by decide)⟩

/-! ### C4 — the fingerprint is a 128-bit digest of bytes 14..end only -/

theorem flatten_byteHex_length : ∀ l : List Nat, ((l.map byteHex).flatten).length = 2 * l.length := by
  intro l
  induction l with
  | nil => rfl
  | cons b rest ih =>
    simp only [List.map_cons, List.flatten_cons, List.length_append, List.length_cons, ih, byteHex]
    simp [Nat.mul_succ]
    omega

theorem md5bytes_length (msg : List Nat) : (md5bytes msg).length = 16 := by
  simp [md5bytes, wordLE]

theorem md5hex_length (msg : List Nat) : (md5hex msg).length = 32 := by
  show (String.mk ((md5bytes msg).map byteHex).flatten).length = 32
  have h : (String.mk ((md5bytes msg).map byteHex).flatten).length =
      (((md5bytes msg).map byteHex).flatten).length := rfl
  rw [h, flatten_byteHex_length, md5bytes_length]

/-- C4: the fingerprint of a decoded note record is a function of the
record slice's bytes from offset 14 onward only — two successfully
decoded slices with equal byte-14 tails have equal fingerprints
whatever their first 14 header bytes are — and it is a 128-bit digest
(32 hex characters). -/
theorem claim_C4_fingerprint_payload_only :
    ∀ (d1 d2 : List Nat) (n1 n2 : PegasusNote),
      parseNote d1 = .ok n1 → parseNote d2 = .ok n2 →
      d1.drop 14 = d2.drop 14 →
      n1.hash = n2.hash ∧ n1.hash.length = 32 := by
  intro d1 d2 n1 n2 h1 h2 hdrop
  obtain ⟨-, -, -, hh1, -⟩ := parseNote_ok_spec h1
  obtain ⟨-, -, -, hh2, -⟩ := parseNote_ok_spec h2
  refine ⟨?_, ?_⟩
  · rw [hh1, hh2, hdrop]
  · rw [hh1]
    exact md5hex_length _

set_option maxRecDepth 100000 in
theorem claim_C4_fingerprint_payload_only_witness :
    (headerOnlyNote 1).hash = (headerOnlyNote 9).hash ∧ (headerOnlyNote 1).hash.length = 32 :=
  claim_C4_fingerprint_payload_only headerOnlyRecord1 headerOnlyRecord2
    (headerOnlyNote 1) (headerOnlyNote 9) (by decide) (by decide) (by decide)

/-! ### C5 — a trailing open stroke is not flushed -/

theorem scanStrokes_nonSentinel : ∀ (k : Nat) (q : List Nat), q.length ≤ k →
    nonSentinelGroups q = true → ∀ st, scanStrokes q st = .ok [] := by
  intro k
  induction k with
  | zero =>
    intro q hq _ st
    rcases q with _ | ⟨b0, rest⟩
    · rfl
    · simp at hq
  | succ k ih =>
    intro q hq hns st
    rcases q with _ | ⟨b0, _ | ⟨b1, _ | ⟨b2, _ | ⟨b3, rest⟩⟩⟩⟩
    · rfl
    · simp [nonSentinelGroups] at hns
    · simp [nonSentinelGroups] at hns
    · simp [nonSentinelGroups] at hns
    · simp only [nonSentinelGroups, Bool.and_eq_true, decide_eq_true_eq] at hns
      simp only [scanStrokes, if_neg hns.1]
      refine ih rest ?_ hns.2 _
      simp only [List.length_cons] at hq
      omega

theorem scanStrokes_append : ∀ (k : Nat) (p : List Nat), p.length ≤ k →
    ∀ st ss q, scanStrokes p st = .ok ss → (∀ st2, scanStrokes q st2 = .ok []) →
    scanStrokes (p ++ q) st = .ok ss := by
  intro k
  induction k with
  | zero =>
    intro p hp st ss q hscan hq
    rcases p with _ | ⟨b0, rest⟩
    · obtain rfl : ss = [] := (Except.ok.inj hscan).symm
      simpa using hq st
    · simp at hp
  | succ k ih =>
    intro p hp st ss q hscan hq
    rcases p with _ | ⟨b0, _ | ⟨b1, _ | ⟨b2, _ | ⟨b3, rest⟩⟩⟩⟩
    · obtain rfl : ss = [] := (Except.ok.inj hscan).symm
      simpa using hq st
    · simp [scanStrokes] at hscan
    · simp [scanStrokes] at hscan
    · simp [scanStrokes] at hscan
    · have hlr : rest.length ≤ k := by
        simp only [List.length_cons] at hp
        omega
      by_cases hsent : [b0, b1, b2, b3] = [(0 : Nat), 0, 0, 128]
      · simp only [scanStrokes, if_pos hsent] at hscan
        cases hrest : scanStrokes rest [] with
        | error e => rw [hrest] at hscan; simp at hscan
        | ok ss2 =>
          rw [hrest] at hscan
          obtain rfl : ss = st :: ss2 := (Except.ok.inj hscan).symm
          show scanStrokes (b0 :: b1 :: b2 :: b3 :: (rest ++ q)) st = .ok (st :: ss2)
          simp only [scanStrokes, if_pos hsent]
          rw [ih rest hlr [] ss2 q hrest hq]
      · simp only [scanStrokes, if_neg hsent] at hscan
        show scanStrokes (b0 :: b1 :: b2 :: b3 :: (rest ++ q)) st = .ok ss
        simp only [scanStrokes, if_neg hsent]
        exact ih rest hlr _ ss q hscan hq

/-- C5: when a record's stroke payload is extended by trailing full
4-byte groups none of which is the pen-lift sentinel (a trailing open
stroke), the decoded stroke list and note id are unchanged — only
sentinel-terminated strokes ever appear in the output. -/
theorem claim_C5_trailing_open_stroke_dropped :
    ∀ (d extra : List Nat) (n : PegasusNote),
      parseNote d = .ok n → nonSentinelGroups extra = true →
      Except.map (fun m : PegasusNote => (m.strokes, m.note_id)) (parseNote (d ++ extra)) =
        .ok (n.strokes, n.note_id) := by
  intro d extra n hok hns
  obtain ⟨h13, hb, hscan, _, hid⟩ := parseNote_ok_spec hok
  have hq : ∀ st2, scanStrokes extra st2 = .ok [] :=
    scanStrokes_nonSentinel extra.length extra le_rfl hns
  have hdrop : (d ++ extra).drop 14 = d.drop 14 ++ extra :=
    List.drop_append_of_le_length (by omega)
  have hscan2 : scanStrokes ((d ++ extra).drop 14) [] = .ok n.strokes := by
    rw [hdrop]
    exact scanStrokes_append (d.drop 14).length _ le_rfl _ _ _ hscan hq
  have hb2 : ¬ (d ++ extra).getD 3 0 &&& 16 = 0 := by
    rw [List.getD_append _ _ _ _ (by omega)]
    exact hb
  have h13b : 13 < (d ++ extra).length := by
    rw [List.length_append]
    omega
  rw [parseNote_ok_intro (d ++ extra) h13b hb2 n.strokes hscan2]
  rw [List.getD_append _ _ _ _ (by omega), ← hid]
  rfl

set_option maxRecDepth 100000 in
theorem claim_C5_trailing_open_stroke_dropped_witness :
    Except.map (fun m : PegasusNote => (m.strokes, m.note_id))
        (parseNote (oneStrokeRecord ++ [1, 0, 2, 0])) =
      .ok (oneStrokeNote.strokes, oneStrokeNote.note_id) :=
  claim_C5_trailing_open_stroke_dropped oneStrokeRecord [1, 0, 2, 0] oneStrokeNote
    (by decide) (by decide)

/-! ### C10 — the point (0, -32768) cannot appear in any decoded stroke -/

theorem toI16_pair_sentinel {b0 b1 b2 b3 : Nat} (h0 : b0 < 256) (h1 : b1 < 256)
    (h2 : b2 < 256) (h3 : b3 < 256)
    (hx : toI16 b0 b1 = 0) (hy : toI16 b2 b3 = -32768) :
    [b0, b1, b2, b3] = [0, 0, 0, 128] := by
  unfold toI16 at hx hy
  simp only [Nat.shiftLeft_eq, show (2 : Nat) ^ 8 = 256 from rfl] at hx hy
  have e0 : b0 = 0 ∧ b1 = 0 := by
    by_cases hv : b0 + b1 * 256 < 32768
    · rw [if_pos hv] at hx
      omega
    · rw [if_neg hv] at hx
      omega
  have e2 : b2 = 0 ∧ b3 = 128 := by
    by_cases hv : b2 + b3 * 256 < 32768
    · rw [if_pos hv] at hy
      omega
    · rw [if_neg hv] at hy
      omega
  simp [e0.1, e0.2, e2.1, e2.2]

theorem scanStrokes_no_sentinel_point : ∀ (k : Nat) (p : List Nat), p.length ≤ k →
    (∀ b ∈ p, b < 256) → ∀ st ss, scanStrokes p st = .ok ss →
    (∀ pt ∈ st, pt ≠ ((0 : Int), (-32768 : Int))) →
    ∀ s ∈ ss, ∀ pt ∈ s, pt ≠ ((0 : Int), (-32768 : Int)) := by
  intro k
  induction k with
  | zero =>
    intro p hp hb st ss hscan hst
    rcases p with _ | ⟨b0, rest⟩
    · obtain rfl : ss = [] := (Except.ok.inj hscan).symm
      simp
    · simp at hp
  | succ k ih =>
    intro p hp hb st ss hscan hst
    rcases p with _ | ⟨b0, _ | ⟨b1, _ | ⟨b2, _ | ⟨b3, rest⟩⟩⟩⟩
    · obtain rfl : ss = [] := (Except.ok.inj hscan).symm
      simp
    · simp [scanStrokes] at hscan
    · simp [scanStrokes] at hscan
    · simp [scanStrokes] at hscan
    · have hlr : rest.length ≤ k := by
        simp only [List.length_cons] at hp
        omega
      have hbr : ∀ b ∈ rest, b < 256 := by
        intro b hbm
        exact hb b (by simp [hbm])
      by_cases hsent : [b0, b1, b2, b3] = [(0 : Nat), 0, 0, 128]
      · simp only [scanStrokes, if_pos hsent] at hscan
        cases hrest : scanStrokes rest [] with
        | error e => rw [hrest] at hscan; simp at hscan
        | ok ss2 =>
          rw [hrest] at hscan
          obtain rfl : ss = st :: ss2 := (Except.ok.inj hscan).symm
          intro s hs
          rcases List.mem_cons.mp hs with rfl | hs2
          · exact hst
          · exact ih rest hlr hbr [] ss2 hrest (by simp) s hs2
      · simp only [scanStrokes, if_neg hsent] at hscan
        refine ih rest hlr hbr _ ss hscan ?_
        intro pt hpt
        rcases List.mem_append.mp hpt with hm | hm
        · exact hst pt hm
        · obtain rfl : pt = (toI16 b0 b1, toI16 b2 b3) := by simpa using hm
          intro hbad
          refine hsent (toI16_pair_sentinel ?_ ?_ ?_ ?_ ?_ ?_)
          · exact hb b0 (by simp)
          · exact hb b1 (by simp)
          · exact hb b2 (by simp)
          · exact hb b3 (by simp)
          · exact congrArg Prod.fst hbad
          · exact congrArg Prod.snd hbad

/-- C10: no decoded stroke of any successfully decoded note record ever
contains the point (0, -32768): the 4-byte group `00 00 00 80` is the
only little-endian byte encoding of that pair, and it is always consumed
as the pen-lift sentinel, never appended to a stroke. -/
theorem claim_C10_sentinel_point_unrepresentable :
    ∀ (data : List Nat) (n : PegasusNote),
      (∀ b ∈ data, b < 256) → parseNote data = .ok n →
      ∀ s ∈ n.strokes, ((0 : Int), (-32768 : Int)) ∉ s := by
  intro data n hb hok s hs hmem
  obtain ⟨-, -, hscan, -, -⟩ := parseNote_ok_spec hok
  have hsub : ∀ b ∈ data.drop 14, b < 256 := by
    intro b hbm
    exact hb b ((List.drop_subset 14 data) hbm)
  exact scanStrokes_no_sentinel_point (data.drop 14).length _ le_rfl hsub [] n.strokes
    hscan (by simp) s hs _ hmem rfl

set_option maxRecDepth 100000 in
theorem claim_C10_sentinel_point_unrepresentable_witness :
    ((0 : Int), (-32768 : Int)) ∉ oneStrokeNote.strokes.getD 0 [] :=
  claim_C10_sentinel_point_unrepresentable oneStrokeRecord oneStrokeNote
    (by decide) (by decide) (oneStrokeNote.strokes.getD 0 []) (by decide)

/-! ### C9 — the get_version reply layout -/

/-- C9 counterexample: the code unpacks the reply with struct layout
`>BBBHHHBB`, so the pad-version is a big-endian **u16** at bytes 7-8 and
the `0x0E` marker sits at byte 9.  On `verMsg` (pad-version bytes
`01 02`) the code succeeds and decodes pad-version 258 — a value no u8
field could hold — while a parser following the claim's layout (u8
pad-version at byte 7, marker at byte 8) rejects the same reply. -/
theorem claim_C9_counterexample :
    get_version_parse verMsg = .ok ⟨5, 7, 258, 3⟩ ∧
    get_version_parse_claimed verMsg ≠ get_version_parse verMsg := by
  decide

/-- C9 (amended): `get_version` sends the frame `[0x02, 0x02, 0x95,
0x95, 0, 0, 0, 0]` (opcode `[0x95, 0x95]`), and the 64-byte reply is
parsed with the fixed big-endian layout of `>BBBHHHBB`: marker bytes
`0x80 0xA9` at offsets 0-1, a u8 product id at 2, two u16 version
fields at 3-4 and 5-6 that must be equal, a **u16** pad-version at 7-8,
the marker byte `0x0E` at 9, and a u8 mode at 10; parsing succeeds
exactly when the three markers match and the version fields agree, so
any marker mismatch or version disagreement is a fatal protocol
error. -/
theorem claim_C9_version_layout :
    dev_write_command [0x95, 0x95] = [0x02, 0x02, 0x95, 0x95, 0, 0, 0, 0] ∧
    ∀ (m : List Nat) (v : VersionInfo), 10 < m.length →
      (get_version_parse m = .ok v ↔
        (m.getD 0 0 = 128 ∧ m.getD 1 0 = 169 ∧ m.getD 9 0 = 14 ∧
         be16 m 3 = be16 m 5 ∧
         v = ⟨m.getD 2 0, be16 m 3, be16 m 7, m.getD 10 0⟩)) := by
  refine ⟨by decide, ?_⟩
  intro m v hm
  unfold get_version_parse
  rw [if_pos hm]
  constructor
  · intro h
    by_cases h0 : m.getD 0 0 = 128
    · rw [if_pos h0] at h
      by_cases h1 : m.getD 1 0 = 169
      · rw [if_pos h1] at h
        by_cases h9 : m.getD 9 0 = 14
        · rw [if_pos h9] at h
          by_cases hv : be16 m 3 = be16 m 5
          · rw [if_pos hv] at h
            exact ⟨h0, h1, h9, hv, (Except.ok.inj h).symm⟩
          · rw [if_neg hv] at h; simp at h
        · rw [if_neg h9] at h; simp at h
      · rw [if_neg h1] at h; simp at h
    · rw [if_neg h0] at h; simp at h
  · rintro ⟨h0, h1, h9, hv, rfl⟩
    rw [if_pos h0, if_pos h1, if_pos h9, if_pos hv]

theorem claim_C9_version_layout_witness :
    get_version_parse verMsg2 = .ok ⟨9, 5, 33, 2⟩ :=
  (claim_C9_version_layout.2 verMsg2 ⟨9, 5, 33, 2⟩ (by decide)).mpr (by decide)

/-! ### C6/C7 — bulk download reassembly -/

theorem parse_dl_header_ok (n : Nat) : parse_download_header (dl_header n) = .ok n := by
  unfold parse_download_header dl_header
  rw [if_pos (by simp), if_pos (by simp [List.getD])]
  simp [List.getD, Nat.shiftLeft_eq]
  omega

theorem upsert_notmem : ∀ (m : List (Nat × List Nat)) (k : Nat) (v : List Nat),
    k ∉ m.map Prod.fst → upsert m k v = m ++ [(k, v)] := by
  intro m
  induction m with
  | nil => intro k v _; rfl
  | cons x rest ih =>
    intro k v h
    rcases x with ⟨k1, v1⟩
    simp only [List.map_cons, List.mem_cons, not_or] at h
    simp only [upsert, if_neg (fun hh : k1 = k => h.1 hh.symm), List.cons_append]
    rw [ih k v h.2]

theorem upsert_keys : ∀ (m : List (Nat × List Nat)) (k : Nat) (v : List Nat),
    (upsert m k v).map Prod.fst =
      if k ∈ m.map Prod.fst then m.map Prod.fst else m.map Prod.fst ++ [k] := by
  intro m
  induction m with
  | nil => intro k v; simp [upsert]
  | cons x rest ih =>
    intro k v
    rcases x with ⟨k1, v1⟩
    by_cases hk : k1 = k
    · subst hk
      simp [upsert]
    · simp only [upsert, if_neg hk, List.map_cons, ih]
      by_cases hmem : k ∈ rest.map Prod.fst
      · simp [hmem, Ne.symm hk]
      · simp [hmem, Ne.symm hk]

theorem collectPackets_complete : ∀ (frames : List (List Nat)) (n : Nat)
    (acc : List (Nat × List Nat)),
    (frames.map packet_id).Nodup →
    (acc.map Prod.fst).Nodup →
    (∀ kk ∈ acc.map Prod.fst, kk ∉ frames.map packet_id) →
    acc.length + frames.length ≤ n →
    collectPackets frames n acc = acc ++ assocOf frames := by
  intro frames
  induction frames with
  | nil => intro n acc _ _ _ _; simp [collectPackets, assocOf]
  | cons f rest ih =>
    intro n acc hnf hna hdisj hlen
    have hpid_not_acc : packet_id f ∉ acc.map Prod.fst := by
      intro hmem
      exact hdisj _ hmem (by simp)
    have hflt : acc.length < n := by
      simp only [List.length_cons] at hlen
      omega
    simp only [collectPackets, if_pos hflt]
    rw [upsert_notmem acc _ _ hpid_not_acc]
    have hnf2 : (rest.map packet_id).Nodup := (List.nodup_cons.mp (by simpa using hnf)).2
    have hhd : packet_id f ∉ rest.map packet_id := (List.nodup_cons.mp (by simpa using hnf)).1
    have hna2 : ((acc ++ [(packet_id f, f.drop 2)]).map Prod.fst).Nodup := by
      simp only [List.map_append, List.map_cons, List.map_nil]
      simp [List.nodup_append, hna, hpid_not_acc]
    have hdisj2 : ∀ kk ∈ (acc ++ [(packet_id f, f.drop 2)]).map Prod.fst,
        kk ∉ rest.map packet_id := by
      intro kk hkk
      simp only [List.map_append, List.map_cons, List.map_nil, List.mem_append,
        List.mem_singleton] at hkk
      rcases hkk with hkk | rfl
      · intro hr
        exact hdisj kk hkk (by simp [hr])
      · exact hhd
    have hlen2 : (acc ++ [(packet_id f, f.drop 2)]).length + rest.length ≤ n := by
      simp only [List.length_append, List.length_cons, List.length_nil,
        List.length_cons] at hlen ⊢
      omega
    rw [ih n _ hnf2 hna2 hdisj2 hlen2]
    simp [assocOf]

theorem collectPackets_keys : ∀ (frames : List (List Nat)) (n : Nat)
    (acc : List (Nat × List Nat)), (acc.map Prod.fst).Nodup →
    ((collectPackets frames n acc).map Prod.fst).Nodup ∧
    (collectPackets frames n acc).map Prod.fst ⊆ acc.map Prod.fst ++ frames.map packet_id := by
  intro frames
  induction frames with
  | nil =>
    intro n acc hna
    exact ⟨by simpa [collectPackets] using hna, by simp [collectPackets]⟩
  | cons f rest ih =>
    intro n acc hna
    by_cases hflt : acc.length < n
    · simp only [collectPackets, if_pos hflt]
      have hup : ((upsert acc (packet_id f) (f.drop 2)).map Prod.fst).Nodup := by
        rw [upsert_keys]
        by_cases hmem : packet_id f ∈ acc.map Prod.fst
        · simpa [hmem] using hna
        · simp only [hmem, if_neg]
          simp [List.nodup_append, hna, hmem]
      have hsub : (upsert acc (packet_id f) (f.drop 2)).map Prod.fst ⊆
          acc.map Prod.fst ++ [packet_id f] := by
        rw [upsert_keys]
        by_cases hmem : packet_id f ∈ acc.map Prod.fst
        · simp only [hmem, if_pos]
          intro x hx
          simp [List.mem_append, hx]
        · simp [hmem]
      obtain ⟨hn2, hs2⟩ := ih n _ hup
      refine ⟨hn2, ?_⟩
      intro x hx
      have := hs2 hx
      rcases List.mem_append.mp this with hx2 | hx2
      · rcases List.mem_append.mp (hsub hx2) with hx3 | hx3
        · simp [List.mem_append, hx3]
        · simp only [List.mem_singleton] at hx3
          simp [hx3]
      · simp [List.mem_append, List.mem_cons, hx2]
    · simp only [collectPackets, if_neg hflt]
      refine ⟨hna, ?_⟩
      intro x hx
      simp [List.mem_append, hx]

/-- C7: if strictly fewer distinct packet ids than the announced count
arrive before the stream dries up, `download_data` fails the
`len(packets) == number_of_packets` assertion instead of returning a
short buffer. -/
theorem claim_C7_shortfall_fails :
    ∀ (n : Nat) (frames : List (List Nat)),
      (frames.map packet_id).dedup.length < n →
      download_data (some (dl_header n)) frames = .error DlErr.assertPackets := by
  intro n frames hcount
  simp only [download_data, parse_dl_header_ok]
  obtain ⟨hnd, hsub⟩ := collectPackets_keys frames n [] (by simp)
  have hsub2 : (collectPackets frames n []).map Prod.fst ⊆ (frames.map packet_id).dedup := by
    intro x hx
    rw [List.mem_dedup]
    simpa using hsub hx
  have hlen : (collectPackets frames n []).length ≤ (frames.map packet_id).dedup.length := by
    have h1 : ((collectPackets frames n []).map Prod.fst).length ≤
        (frames.map packet_id).dedup.length :=
      (List.subperm_of_subset hnd hsub2).length_le
    simpa using h1
  rw [if_neg (by omega)]

theorem claim_C7_shortfall_fails_witness :
    download_data (some (dl_header 2)) [frameA] = .error DlErr.assertPackets :=
  claim_C7_shortfall_fails 2 [frameA] (by decide)

theorem lookup_perm {l1 l2 : List (Nat × List Nat)} (hp : l1.Perm l2)
    (hnd : (l1.map Prod.fst).Nodup) : ∀ kk, l1.lookup kk = l2.lookup kk := by
  induction hp with
  | nil => intro kk; rfl
  | cons x l12 ih =>
    intro kk
    rcases x with ⟨k1, v1⟩
    by_cases h : kk = k1
    · subst h
      simp [List.lookup]
    · have hnd2 := (List.nodup_cons.mp hnd).2
      have hbe : (kk == k1) = false := by simp [h]
      simp only [List.lookup, hbe]
      exact ih hnd2 kk
  | swap x y l =>
    intro kk
    rcases x with ⟨k1, v1⟩
    rcases y with ⟨k2, v2⟩
    have hk12 : k2 ≠ k1 := by
      have hh1 := (List.nodup_cons.mp hnd).1
      intro hh
      exact hh1 (by simp [hh])
    by_cases h1 : kk = k2
    · subst h1
      have hb2 : (kk == k1) = false := by simp [hk12]
      simp [List.lookup, hb2]
    · by_cases h2 : kk = k1
      · subst h2
        have hb1 : (kk == k2) = false := by simp [h1]
        simp [List.lookup, hb1]
      · have hb1 : (kk == k1) = false := by simp [h2]
        have hb2 : (kk == k2) = false := by simp [h1]
        simp [List.lookup, hb1, hb2]
  | trans h12 h23 ih1 ih2 =>
    intro kk
    have hnd2 := ((h12.map Prod.fst).nodup_iff).mp hnd
    rw [ih1 hnd kk, ih2 hnd2 kk]

theorem gatherFrom_congr : ∀ (m : Nat) (p1 p2 : List (Nat × List Nat)) (start : Nat),
    (∀ kk, p1.lookup kk = p2.lookup kk) →
    gatherFrom p1 start m = gatherFrom p2 start m := by
  intro m
  induction m with
  | zero => intro p1 p2 start _; rfl
  | succ mm ih =>
    intro p1 p2 start hl
    simp only [gatherFrom, hl start]
    rw [ih p1 p2 (start + 1) hl]

theorem gatherFrom_skip : ∀ (m : Nat) (k : Nat) (v : List Nat)
    (q : List (Nat × List Nat)) (start : Nat), k < start →
    gatherFrom ((k, v) :: q) start m = gatherFrom q start m := by
  intro m
  induction m with
  | zero => intro k v q start _; rfl
  | succ mm ih =>
    intro k v q start h
    have hbe : (start == k) = false := by
      simp only [beq_eq_false_iff_ne, ne_eq]
      omega
    simp only [gatherFrom, List.lookup, hbe]
    rw [ih k v q (start + 1) (by omega)]

theorem gatherFrom_inorder : ∀ (l : List (List Nat)) (s : Nat),
    l.map packet_id = List.range' s l.length →
    gatherFrom (assocOf l) s l.length = some (l.map (fun f => f.drop 2)) := by
  intro l
  induction l with
  | nil => intro s _; rfl
  | cons f rest ih =>
    intro s hmap
    simp only [List.length_cons, List.map_cons, List.range'_succ] at hmap
    obtain ⟨hpid, hrest⟩ := List.cons.inj hmap
    show gatherFrom (assocOf (f :: rest)) s (rest.length + 1) = _
    have hhit : (assocOf (f :: rest)).lookup s = some (f.drop 2) := by
      simp [assocOf, List.lookup, hpid]
    simp only [gatherFrom, hhit]
    have hskip : gatherFrom (assocOf (f :: rest)) (s + 1) rest.length =
        gatherFrom (assocOf rest) (s + 1) rest.length := by
      show gatherFrom ((packet_id f, f.drop 2) :: assocOf rest) (s + 1) rest.length = _
      rw [gatherFrom_skip rest.length (packet_id f) (f.drop 2) (assocOf rest) (s + 1)
        (by omega)]
    rw [hskip, ih (s + 1) hrest]
    simp

/-- C6: bulk download reassembly is independent of packet arrival
order: for every announced count `n` and every permutation `frames` of
an in-order frame list whose big-endian ids are exactly `1..n`, the
download returns the concatenation of the 62-byte payloads in
increasing id order — the same buffer in-order delivery produces. -/
theorem claim_C6_reassembly_order_independent :
    ∀ (n : Nat) (frames inorder : List (List Nat)),
      (∀ f ∈ frames, f.length = 64) →
      frames.Perm inorder →
      inorder.map packet_id = List.range' 1 n →
      download_data (some (dl_header n)) frames =
        .ok ((inorder.map (fun f => f.drop 2)).flatten) := by
  intro n frames inorder _ hperm hids
  have hlen_io : inorder.length = n := by
    have := congrArg List.length hids
    simpa using this
  have hnd_io : (inorder.map packet_id).Nodup := by
    rw [hids]
    exact List.nodup_range' 1 n
  have hpm : (frames.map packet_id).Perm (inorder.map packet_id) := hperm.map _
  have hnd_f : (frames.map packet_id).Nodup := (hpm.nodup_iff).mpr hnd_io
  have hlen_f : frames.length = n := by
    rw [hperm.length_eq, hlen_io]
  have hcol : collectPackets frames n [] = assocOf frames := by
    simpa using collectPackets_complete frames n [] hnd_f (by simp) (by simp)
      (by simp only [List.length_nil, Nat.zero_add]; omega)
  simp only [download_data, parse_dl_header_ok, hcol]
  have hassoc_len : (assocOf frames).length = n := by
    simp [assocOf, hlen_f]
  rw [if_pos hassoc_len]
  have hpa : (assocOf frames).Perm (assocOf inorder) :=
    hperm.map (fun f => (packet_id f, f.drop 2))
  have hka : ((assocOf frames).map Prod.fst).Nodup := by
    have : (assocOf frames).map Prod.fst = frames.map packet_id := by
      simp [assocOf]
    rw [this]
    exact hnd_f
  rw [gatherFrom_congr n _ _ 1 (lookup_perm hpa hka)]
  have hg := gatherFrom_inorder inorder 1 (by rw [hlen_io]; exact hids)
  rw [hlen_io] at hg
  rw [hg]

theorem claim_C6_reassembly_order_independent_witness :
    download_data (some (dl_header 2)) [frameB, frameA] =
      .ok (([frameA, frameB].map (fun f => f.drop 2)).flatten) :=
  claim_C6_reassembly_order_independent 2 [frameB, frameA] [frameA, frameB]
    (by decide) (List.Perm.swap frameA frameB []) (by decide)

end Pygasus
